import Mathlib

/-!
# Verification of ninja.py (steam server browser using keywords)

Shallow embedding of the fetch-validate-filter-normalize-render pipeline of
`ninja.py`, together with proofs settling the specification claims.

Python strings are modelled as Lean `String` (lists of unicode scalar
characters); `str.lower()` is modelled on the ASCII range, which covers every
string the program compares.  Machine-level concerns (actual sockets, the
terminal) are abstracted: the outcome of one `requests.get` call is an input
to the model, exactly as the source classifies it in `api_call`.
-/

namespace Ninja

/-! ## Python string primitives -/

/-- The characters removed by Python's `str.strip()` (ASCII whitespace). -/
def pyWhitespace (c : Char) : Bool :=
  c == ' ' || c == '\t' || c == '\n' || c == '\x0d' || c == '\x0b' || c == '\x0c'

/-- Drop leading and trailing whitespace from a character list
(`str.strip()` on the underlying characters). -/
def stripChars (l : List Char) : List Char :=
  ((l.dropWhile pyWhitespace).reverse.dropWhile pyWhitespace).reverse

/-- Python `str.strip()`. -/
def pyStrip (s : String) : String :=
  ⟨stripChars s.data⟩

/-- Python `str.lower()`, modelled on the ASCII range. -/
def pyLower (s : String) : String :=
  ⟨s.data.map Char.toLower⟩

/-- Python `needle in hay` for lists of characters: `needle` occurs as a
contiguous run inside `hay`. -/
def containsChars (needle : List Char) : List Char → Bool
  | [] => needle.isEmpty
  | c :: t => needle.isPrefixOf (c :: t) || containsChars needle t

/-- Python `needle in hay` on strings. -/
def pyContains (hay needle : String) : Bool :=
  containsChars needle.data hay.data

/-- Python `s.split(sep)` for a one-character separator, on character lists. -/
def splitChars (sep : Char) : List Char → List (List Char)
  | [] => [[]]
  | c :: t =>
    match splitChars sep t with
    | [] => [[]]
    | h :: rs => if c == sep then [] :: h :: rs else (c :: h) :: rs

/-- Python `s.split(sep)` for a one-character separator. -/
def pySplit (sep : Char) (s : String) : List String :=
  (splitChars sep s.data).map String.mk

/-- Python `s.ljust(w)`: pad on the right with spaces up to width `w`. -/
def ljust (s : String) (w : Nat) : String :=
  s ++ ⟨List.replicate (w - s.length) ' '⟩

/-! ## decolor (ninja.py lines 151-154)

`re.sub(r'/\^[1-8]/', '', text)`: the pattern is the four-character sequence
slash, caret, a digit `1`-`8`, slash.  `re.sub` removes the leftmost
non-overlapping occurrences, resuming the scan after each removed match. -/

/-- Does the four-character window match the pattern `/\^[1-8]/`? -/
def isColorCode (a b c d : Char) : Bool :=
  a == '/' && b == '^' && ('1' ≤ c && c ≤ '8') && d == '/'

/-- Leftmost non-overlapping removal of the pattern `/\^[1-8]/`. -/
def decolorChars : List Char → List Char
  | a :: b :: c :: d :: rest =>
    if isColorCode a b c d then decolorChars rest
    else a :: decolorChars (b :: c :: d :: rest)
  | l => l

/-- `decolor` from the source: `re.sub(r'/\^[1-8]/', '', text)`. -/
def decolor (text : String) : String :=
  ⟨decolorChars text.data⟩

/-! ## IPv4 addresses and `private_network` (ninja.py lines 17, 272-279) -/

/-- One dotted-quad component as accepted by `ipaddress.IPv4Address`:
one to three ASCII digits, no leading zero, value at most 255. -/
def parseOctet (l : List Char) : Option Nat :=
  if l.isEmpty || decide (l.length > 3) || l.any (fun c => !c.isDigit) then none
  else if decide (l.length > 1) && l.headD '0' == '0' then none
  else
    let v := l.foldl (fun a c => a * 10 + (c.toNat - '0'.toNat)) 0
    if v ≤ 255 then some v else none

/-- `ipaddress.IPv4Address(s)` as a 32-bit value, `none` when the constructor
would raise `AddressValueError`. -/
def parseIPv4 (s : String) : Option Nat :=
  match splitChars '.' s.data with
  | [a, b, c, d] => do
    let va ← parseOctet a
    let vb ← parseOctet b
    let vc ← parseOctet c
    let vd ← parseOctet d
    pure (((va * 256 + vb) * 256 + vc) * 256 + vd)
  | _ => none

/-- A CIDR range string `a.b.c.d/p` as network value and prefix length. -/
def parseCIDR (s : String) : Option (Nat × Nat) :=
  match splitChars '/' s.data with
  | [a, p] => do
    let v ← parseIPv4 ⟨a⟩
    let pl ← if p ≠ [] ∧ p.all Char.isDigit then
        some (p.foldl (fun n c => n * 10 + (c.toNat - '0'.toNat)) 0) else none
    if pl ≤ 32 then pure (v, pl) else none
  | _ => none

/-- `IPv4Address(v) in IPv4Network(net)`: the two values agree on the first
`p` bits.  (The program only applies this to the three well-formed constants
of `PRIVATE`, so the `none` branch is unreachable there.) -/
def ipInNetwork (v : Nat) (net : String) : Bool :=
  match parseCIDR net with
  | some (nv, p) => v / 2 ^ (32 - p) == nv / 2 ^ (32 - p)
  | none => false

/-- `PRIVATE` from the source (line 17). -/
def PRIVATE : List String := ["10.0.0.0/8", "172.16.0.0/12", "192.168.0.0/16"]

/-- Python exceptions relevant to the model: the `AddressValueError` raised by
`ipaddress.IPv4Address` on malformed input, and the external interrupt. -/
inductive Exn where
  | addressValueError : Exn
  | keyboardInterrupt : Exn
deriving DecidableEq

/-- `private_network(ip)` (lines 272-279): raises on a malformed address,
otherwise reports whether the address lies in any `PRIVATE` range.
The source parses `ip` inside the loop, once per range; since `PRIVATE` is a
fixed non-empty list of valid ranges, parsing once up front is equivalent. -/
def private_network (ip : String) : Except Exn Bool :=
  match parseIPv4 ip with
  | none => .error .addressValueError
  | some v => .ok (PRIVATE.any fun net => ipInNetwork v net)

/-! ## Data model -/

/-- The configuration read by the accessors `include()`, `exclude()` and
`private()` (lines 31-44): the semicolon-split keyword lists and the
private-network toggle. -/
structure Config where
  includeKeywords : List String
  excludeKeywords : List String
  privateNetworks : Bool
deriving DecidableEq

/-- One raw record of the directory response, with the fields `create_server`
reads (lines 281-319). -/
structure RawServer where
  name : String
  addr : String
  gameport : Nat
  product : String
  map : String
  players : Nat
  max_players : Nat
  gametype : String
deriving DecidableEq

/-- The normalized server dictionary built by `create_server`. -/
structure Server where
  game : String
  name : String
  password : String
  players : String
  map : String
  address : String
deriving DecidableEq

/-! ## create_server (ninja.py lines 281-319) -/

/-- `decolor(server_json['name'].strip())`. -/
def server_name (r : RawServer) : String :=
  decolor (pyStrip r.name)

/-- `addr = server_json['addr'].strip(); address = addr.split(':');
ip = address[0].strip()`. -/
def record_ip (r : RawServer) : String :=
  pyStrip ((pySplit ':' (pyStrip r.addr)).headD "")

/-- The exclude-keyword test of lines 286-287:
`exclude()[0] and any(ex.lower().strip() in name.lower() for ex in exclude())`. -/
def excluded (cfg : Config) (r : RawServer) : Bool :=
  !(cfg.excludeKeywords.headD "" == "") &&
    cfg.excludeKeywords.any
      (fun ex => pyContains (pyLower (server_name r)) (pyStrip (pyLower ex)))

/-- The dictionary returned on line 312-319: game, name, password flag,
players, map, and the join address `{ip}:{gameport}`. -/
def server_entry (r : RawServer) : Server where
  game := pyStrip r.product
  name := server_name r
  password :=
    if (pySplit ',' (pyLower (pyStrip r.gametype))).contains "pw"
    then "ê—ƒ " else ""
  players := toString r.players ++ "/" ++ toString r.max_players
  map := decolor (pyStrip r.map)
  address := record_ip r ++ ":" ++ toString r.gameport

/-- Lines 289-319 of `create_server`: everything after the exclude-keyword
test.  `if cfg.privateNetworks then Except.ok false else private_network …`
mirrors the short-circuit of `not private() and private_network(ip)`. -/
def normalize_rest (cfg : Config) (r : RawServer) : Except Exn (Option Server) :=
  match (if cfg.privateNetworks then Except.ok false
         else private_network (record_ip r)) with
  | .error e => .error e
  | .ok true => .ok none
  | .ok false => .ok (some (server_entry r))

/-- `create_server(server_json)` (lines 281-319): `Except.error` models an
uncaught Python exception, `.ok none` a rejection (`return None`). -/
def create_server (cfg : Config) (r : RawServer) : Except Exn (Option Server) :=
  if excluded cfg r then .ok none else normalize_rest cfg r

/-! ## Python dictionaries keyed by address

A `dict` is modelled as an association list in insertion order:
`d[k] = v` overwrites in place when the key is present and appends
otherwise, exactly as Python dictionaries behave. -/

abbrev PyDict := List (String × Server)

/-- `d[k] = v`. -/
def dict_set (d : PyDict) (k : String) (v : Server) : PyDict :=
  if d.any (fun p => p.1 == k) then
    d.map (fun p => if p.1 == k then (k, v) else p)
  else d ++ [(k, v)]

/-- `d.get(k)`: the value at key `k`, when present. -/
def dict_get (d : PyDict) (k : String) : Option Server :=
  (d.find? (fun p => p.1 == k)).map Prod.snd

/-- `list(d.keys())`. -/
def dict_keys (d : PyDict) : List String :=
  d.map Prod.fst

/-- `d.update(kvs)`: set every pair of `kvs` in order (line 349). -/
def set_many (d : PyDict) (kvs : List (String × Server)) : PyDict :=
  kvs.foldl (fun a p => dict_set a p.1 p.2) d

/-- The `for server in body['response']['servers']` loop of lines 335-338:
normalize each record and keep the non-rejected ones keyed by address.
An exception from `create_server` aborts the whole loop. -/
def add_records (cfg : Config) : List RawServer → PyDict → Except Exn PyDict
  | [], d => .ok d
  | r :: rest, d =>
    match create_server cfg r with
    | .error e => .error e
    | .ok none => add_records cfg rest d
    | .ok (some s) => add_records cfg rest (dict_set d s.address s)

/-- The key/value pairs contributed by a record list, in order. -/
def norm_entries (cfg : Config) (rs : List RawServer) : List (String × Server) :=
  rs.filterMap fun r =>
    match create_server cfg r with
    | .ok (some e) => some (e.address, e)
    | _ => none

/-! ## DirectoryClient and the poll cycle (ninja.py lines 170-194, 321-352)

The outcome of one `requests.get` call is an input to the model: `api_call`
classifies it into a body and an error string exactly as the source's
`try`/`except` ladder does. -/

/-- `SLEEP` from the source (line 19). -/
def SLEEP : Nat := 60

/-- The shapes of a parsed response body that `valid_response` distinguishes:
a falsy body, a body without `'response'`, one whose response lacks
`'servers'`, and a proper server list. -/
inductive Json where
  | empty : Json
  | noResponse : Json
  | noServers : Json
  | servers (records : List RawServer) : Json
deriving DecidableEq

/-- What one `requests.get` did, as classified by `api_call`'s handlers. -/
inductive ApiOutcome where
  | success (body : Json) : ApiOutcome
  | httpError (status : Nat) : ApiOutcome
  | connectionError : ApiOutcome
  | readTimeout : ApiOutcome
  | jsonDecodeError : ApiOutcome
  | keyError : ApiOutcome
deriving DecidableEq

/-- `api_call(url)` (lines 170-194): returns `body, error`. -/
def api_call : ApiOutcome → Option Json × Option String
  | .success j => (some j, none)
  | .httpError s => (none, some ("HTTPError " ++ toString s))
  | .connectionError => (none, some "ConnectionError")
  | .readTimeout => (none, some "ReadTimeout")
  | .jsonDecodeError => (none, some "JSONDecodeError")
  | .keyError => (none, some "KeyError")

/-- `valid_response(body)` (lines 210-222). -/
def valid_response : Option Json → Bool
  | some (.servers _) => true
  | _ => false

/-- `body['response']['servers']` when the shape is valid, else `[]`. -/
def response_servers : Option Json → List RawServer
  | some (.servers rs) => rs
  | _ => []

/-- `BColors.FAIL` (line 141). -/
def FAIL : String := "\x1b[91m"

/-- `BColors.ENDC` (line 142). -/
def ENDC : String := "\x1b[0m"

/-- `red_text(text)` (lines 146-149). -/
def red_text (text : String) : String :=
  FAIL ++ text ++ ENDC

/-- What one `get_servers(keyword)` call produced: the error lines it
printed, the dictionary it returned, and the seconds it slept. -/
structure StepResult where
  errors : List String
  servers : PyDict
  slept : Nat
deriving DecidableEq

/-- `get_servers(keyword)` (lines 321-340) for a keyword whose query had the
given outcome.  On an error the source prints one red `ERROR: {kind}` line
and sleeps `SLEEP` seconds before returning the empty dictionary. -/
def get_servers (cfg : Config) (o : ApiOutcome) : Except Exn StepResult :=
  let body := (api_call o).1
  let err := (api_call o).2
  let errors := match err with
    | some e => [red_text ("ERROR: " ++ e)]
    | none => []
  let slept := if err.isSome then SLEEP else 0
  if valid_response body then
    (add_records cfg (response_servers body) []).map fun d =>
      { errors := errors, servers := d, slept := slept }
  else
    .ok { errors := errors, servers := [], slept := slept }

/-- The `for keyword in include()` loop of lines 348-349, given one outcome
per keyword: accumulates error lines, merges each keyword's dictionary with
`servers.update(...)`, and sums the seconds slept. -/
def cycle_steps (cfg : Config) :
    List ApiOutcome → PyDict → Except Exn (List String × PyDict × Nat)
  | [], d => .ok ([], d, 0)
  | o :: rest, d =>
    match get_servers cfg o with
    | .error e => .error e
    | .ok step =>
      match cycle_steps cfg rest (set_many d step.servers) with
      | .error e => .error e
      | .ok (es, d2, t) => .ok (step.errors ++ es, d2, step.slept + t)

/-- One iteration of the `while True` loop of `run` (lines 345-352):
the keyword loop followed by the fixed `time.sleep(SLEEP)` after rendering. -/
def run_cycle (cfg : Config) (outs : List ApiOutcome) :
    Except Exn (List String × PyDict × Nat) :=
  (cycle_steps cfg outs []).map fun x => (x.1, x.2.1, x.2.2 + SLEEP)

/-- The top-level handler (lines 358-361) catches only `KeyboardInterrupt`;
any other exception escaping `run()` terminates the process. -/
def main_catches : Exn → Bool
  | .keyboardInterrupt => true
  | _ => false

/-- The raw records a keyword's outcome feeds through `create_server`. -/
def records_of (o : ApiOutcome) : List RawServer :=
  response_servers (api_call o).1

/-- All raw records processed in one cycle, in processing order. -/
def all_records : List ApiOutcome → List RawServer
  | [] => []
  | o :: rest => records_of o ++ all_records rest

/-- Did the keyword's query fail (`api_call` returned an error)? -/
def api_failed (o : ApiOutcome) : Bool :=
  (api_call o).2.isSome

/-! ## TableRenderer: print_servers (ninja.py lines 224-270) -/

/-- Python tuple comparison for the sort key of line 227:
`(s['game'], s['name'])`, ordinal string order. -/
def key_lt (a b : String × Server) : Bool :=
  decide (a.2.game < b.2.game) ||
    (a.2.game == b.2.game && decide (a.2.name < b.2.name))

/-- Insert an element before the first strictly greater one (keeps the sort
stable, as Python's `sorted` is). -/
def insert_sorted (x : String × Server) : PyDict → PyDict
  | [] => [x]
  | y :: ys => if key_lt y x then y :: insert_sorted x ys else x :: y :: ys

/-- `sorted(servers.items(), key=lambda x: (x[1]['game'], x[1]['name']))`. -/
def py_sorted : PyDict → PyDict
  | [] => []
  | x :: xs => insert_sorted x (py_sorted xs)

/-- The column-width loop of lines 236-253: the maximum length of a field,
starting from 0 and bumping whenever a longer value appears. -/
def max_len (f : String × Server → String) (l : PyDict) : Nat :=
  l.foldl (fun m p => if (f p).length > m then (f p).length else m) 0

/-- One output line (lines 258-268): note that no `' - '` is inserted
between the password field and the name field. -/
def server_line (lg lp lnm lpl lm : Nat) (p : String × Server) : String :=
  ljust p.2.game lg ++ " - " ++ ljust p.2.password lp ++ ljust p.2.name lnm
    ++ " - " ++ ljust p.2.players lpl ++ " - " ++ ljust p.2.map lm
    ++ " - " ++ ("steam://connect/" ++ p.1)

/-- The lines printed by `print_servers(servers)` (lines 224-270).  The
source also computes a width for the address column (`ln_addr`, lines
229, 237-238) but never uses it: the address is rendered last, unpadded. -/
def print_servers_lines (servers : PyDict) : List String :=
  let sort := py_sorted servers
  sort.map (server_line
    (max_len (fun p => p.2.game) sort)
    (max_len (fun p => p.2.password) sort)
    (max_len (fun p => p.2.name) sort)
    (max_len (fun p => p.2.players) sort)
    (max_len (fun p => p.2.map) sort))

/-- Joining a list of fields with a separator, as the specification words
"join the fields with the literal separator" describe. -/
def join_fields (sep : String) : List String → String
  | [] => ""
  | [x] => x
  | x :: xs => x ++ sep ++ join_fields sep xs

/-- Modelled from the spec's words for the claim under test: every field
left-justified to its column width, all six segments joined with `" - "`
(in particular between the password flag and the name), the address segment
unpadded. -/
def claimed_line (lg lp lnm lpl lm : Nat) (p : String × Server) : String :=
  join_fields " - "
    [ljust p.2.game lg, ljust p.2.password lp, ljust p.2.name lnm,
      ljust p.2.players lpl, ljust p.2.map lm, "steam://connect/" ++ p.1]

/-- The claim's rendering, applied with the program's column widths. -/
def claimed_lines (servers : PyDict) : List String :=
  let sort := py_sorted servers
  sort.map (claimed_line
    (max_len (fun p => p.2.game) sort)
    (max_len (fun p => p.2.password) sort)
    (max_len (fun p => p.2.name) sort)
    (max_len (fun p => p.2.players) sort)
    (max_len (fun p => p.2.map) sort))

/-- The amended rendering: fields joined with `" - "` except that the
password flag and the name are concatenated directly. -/
def amended_line (lg lp lnm lpl lm : Nat) (p : String × Server) : String :=
  join_fields " - "
    [ljust p.2.game lg, ljust p.2.password lp ++ ljust p.2.name lnm,
      ljust p.2.players lpl, ljust p.2.map lm, "steam://connect/" ++ p.1]

/-- The amended rendering of a whole mapping. -/
def amended_lines (servers : PyDict) : List String :=
  let sort := py_sorted servers
  sort.map (amended_line
    (max_len (fun p => p.2.game) sort)
    (max_len (fun p => p.2.password) sort)
    (max_len (fun p => p.2.name) sort)
    (max_len (fun p => p.2.players) sort)
    (max_len (fun p => p.2.map) sort))

/-! ## Claim C1 -/

/-- The configuration of the end-to-end scenario:
`includeKeywords = ["qcon"]`, `excludeKeywords = [""]`,
`includePrivateNetworks = true`. -/
def c1_config : Config :=
  { includeKeywords := ["qcon"], excludeKeywords := [""], privateNetworks := true }

/-- The raw record of the end-to-end scenario. -/
def c1_record : RawServer :=
  { name := "Server^1One", addr := "203.0.113.5:27015", gameport := 27016,
    product := "game", map := "^2dm1", players := 3, max_players := 16,
    gametype := "pw,ctf" }

/-- C1: the scenario record is accepted with game `"game"`, a non-empty
password flag, players `"3/16"` and address `"203.0.113.5:27016"`, but the
name and map keep their `^1`/`^2` markers: `decolor`'s pattern
`/\^[1-8]/` only removes caret codes wrapped in slashes, so the claimed
`"ServerOne"` and `"dm1"` are not produced.  (The claim is right about the
intent — `decolor`'s own docstring says it removes color codes — and the
code's slash-delimited regex is the slip.) -/
theorem c1_normalization_divergence :
    create_server c1_config c1_record =
      .ok (some { game := "game", name := "Server^1One", password := "ê—ƒ ",
                  players := "3/16", map := "^2dm1",
                  address := "203.0.113.5:27016" })
    ∧ "Server^1One" ≠ "ServerOne" ∧ "^2dm1" ≠ "dm1" :=
  ⟨rfl, by decide, by decide⟩

/-! ## Claim C5 -/

/-- C5 counterexample: removing a match can create a new match, so `decolor`
is not idempotent.  On `"//^1/^2/"` the first pass removes `/^1/` leaving
`"/^2/"`, and a second pass removes that too. -/
theorem c5_decolor_not_idempotent :
    decolor (decolor "//^1/^2/") ≠ decolor "//^1/^2/" := by decide

/-- On a character list without the `'/'` delimiter the pattern
`/\^[1-8]/` never matches, so the scan returns the list unchanged. -/
theorem decolorChars_eq_self_of_no_slash :
    ∀ l : List Char, '/' ∉ l → decolorChars l = l := by
  intro l
  induction l with
  | nil => intro _; rfl
  | cons a t ih =>
    intro h
    simp only [List.mem_cons, not_or] at h
    obtain ⟨ha, ht⟩ := h
    have ha' : (a == '/') = false :=
      beq_eq_false_iff_ne.mpr (fun hh => ha hh.symm)
    rcases t with _ | ⟨b, t⟩
    · rfl
    rcases t with _ | ⟨c, t⟩
    · rfl
    rcases t with _ | ⟨d, t⟩
    · rfl
    have hcc : isColorCode a b c d = false := by
      simp [isColorCode, ha']
    show decolorChars (a :: b :: c :: d :: t) = a :: b :: c :: d :: t
    rw [decolorChars, hcc]
    simp only [Bool.false_eq_true, if_false]
    exact congrArg (a :: ·) (ih ht)

/-- C5 amended: `decolor` is idempotent on every string that does not
contain the `'/'` delimiter (on such strings it is the identity); in
general idempotence fails because removing one match can create another. -/
theorem c5_decolor_idempotent_of_no_slash (s : String) (h : '/' ∉ s.data) :
    decolor (decolor s) = decolor s := by
  have hd : decolorChars s.data = s.data := decolorChars_eq_self_of_no_slash s.data h
  simp [decolor, hd]

/-- Witness for the amended C5 at the scenario's server name. -/
theorem c5_decolor_idempotent_witness :
    '/' ∉ "Server^1One".data ∧
      decolor (decolor "Server^1One") = decolor "Server^1One" :=
  ⟨by decide, c5_decolor_idempotent_of_no_slash "Server^1One" (by decide)⟩

/-! ## Claim C2: substring machinery -/

/-- A list is a Boolean prefix of itself followed by anything. -/
theorem isPrefixOf_self_append (n q : List Char) :
    n.isPrefixOf (n ++ q) = true := by
  induction n with
  | nil => simp [List.isPrefixOf_nil_left]
  | cons a t ih => simp [List.isPrefixOf, ih]

/-- A Boolean prefix gives an append decomposition. -/
theorem exists_of_isPrefixOf :
    ∀ n h : List Char, n.isPrefixOf h = true → ∃ q, h = n ++ q := by
  intro n
  induction n with
  | nil => exact fun h _ => ⟨h, rfl⟩
  | cons a t ih =>
    intro h hp
    cases h with
    | nil => simp [List.isPrefixOf] at hp
    | cons b hs =>
      simp only [List.isPrefixOf, Bool.and_eq_true, beq_iff_eq] at hp
      obtain ⟨q, hq⟩ := ih hs hp.2
      exact ⟨q, by rw [hp.1, hq]; rfl⟩

/-- A needle occurring as a prefix is contained. -/
theorem containsChars_of_isPrefixOf (n h : List Char)
    (hp : n.isPrefixOf h = true) : containsChars n h = true := by
  cases h with
  | nil =>
    cases n with
    | nil => rfl
    | cons a t => simp [List.isPrefixOf] at hp
  | cons c t => simp [containsChars, hp]

/-- A needle spliced into a haystack is contained. -/
theorem containsChars_of_decomp (n p q : List Char) :
    containsChars n (p ++ (n ++ q)) = true := by
  induction p with
  | nil => exact containsChars_of_isPrefixOf n (n ++ q) (isPrefixOf_self_append n q)
  | cons x p ih => simp [containsChars, ih]

/-- Containment gives an append decomposition. -/
theorem decomp_of_containsChars :
    ∀ n h : List Char, containsChars n h = true → ∃ p q, h = p ++ (n ++ q) := by
  intro n h
  induction h with
  | nil =>
    intro hc
    have : n = [] := by
      cases n with
      | nil => rfl
      | cons a t => simp [containsChars, List.isEmpty] at hc
    exact ⟨[], [], by simp [this]⟩
  | cons c t ih =>
    intro hc
    simp only [containsChars, Bool.or_eq_true] at hc
    cases hc with
    | inl hp =>
      obtain ⟨q, hq⟩ := exists_of_isPrefixOf n (c :: t) hp
      exact ⟨[], q, by simp [hq]⟩
    | inr hr =>
      obtain ⟨p, q, hpq⟩ := ih hr
      exact ⟨c :: p, q, by rw [hpq]; rfl⟩

/-- `str.strip()` removes a (whitespace) run from each end: the original
list is the stripped list with something on either side. -/
theorem exists_strip_decomp (l : List Char) :
    ∃ u w, l = u ++ (stripChars l ++ w) := by
  refine ⟨l.takeWhile pyWhitespace,
    ((l.dropWhile pyWhitespace).reverse.takeWhile pyWhitespace).reverse, ?_⟩
  have h2 := List.takeWhile_append_dropWhile (p := pyWhitespace)
    (l := (l.dropWhile pyWhitespace).reverse)
  have h3 := congrArg List.reverse h2
  rw [List.reverse_append, List.reverse_reverse] at h3
  have h4 : l.dropWhile pyWhitespace =
      stripChars l ++ ((l.dropWhile pyWhitespace).reverse.takeWhile pyWhitespace).reverse :=
    h3.symm
  conv_lhs => rw [← List.takeWhile_append_dropWhile (p := pyWhitespace) (l := l), h4]

/-- If the haystack contains the needle, it also contains the stripped
needle (`ex.lower().strip() in name.lower()` is implied by
`ex.lower() in name.lower()`). -/
theorem containsChars_strip_of_containsChars (n h : List Char)
    (hc : containsChars n h = true) :
    containsChars (stripChars n) h = true := by
  obtain ⟨p, q, hpq⟩ := decomp_of_containsChars n h hc
  obtain ⟨u, w, hn⟩ := exists_strip_decomp n
  have hgoal := containsChars_of_decomp (stripChars n) (p ++ u) (w ++ q)
  rw [hpq]
  nth_rewrite 2 [hn]
  simp only [List.append_assoc] at hgoal ⊢
  exact hgoal

/-- C2: with exclusion enabled (first exclude keyword non-empty), any record
whose decolored, trimmed name contains some configured exclude keyword
case-insensitively is rejected; with an empty first keyword the exclusion
test short-circuits and `create_server` behaves exactly as the pipeline
without it. -/
theorem c2_exclude_keyword (cfg : Config) (r : RawServer) :
    (cfg.excludeKeywords.headD "" ≠ "" →
      ∀ ex ∈ cfg.excludeKeywords,
        pyContains (pyLower (server_name r)) (pyLower ex) = true →
        create_server cfg r = .ok none)
    ∧ (cfg.excludeKeywords.headD "" = "" →
        create_server cfg r = normalize_rest cfg r) := by
  constructor
  · intro hhead ex hmem hcont
    have hne : (cfg.excludeKeywords.headD "" == "") = false :=
      beq_eq_false_iff_ne.mpr hhead
    have hex : excluded cfg r = true := by
      unfold excluded
      rw [hne]
      simp only [Bool.not_false, Bool.true_and]
      apply List.any_eq_true.mpr
      refine ⟨ex, hmem, ?_⟩
      show containsChars (pyStrip (pyLower ex)).data (pyLower (server_name r)).data = true
      exact containsChars_strip_of_containsChars _ _ hcont
    unfold create_server
    rw [hex]
    rfl
  · intro hhead
    have hex : excluded cfg r = false := by
      unfold excluded
      rw [hhead]
      simp
    unfold create_server
    rw [hex]
    rfl

/-- Witness record for C2: name `"Server One"`, matched by keyword
`" ONE "` after lowering and stripping. -/
def c2_record : RawServer :=
  { name := "Server One More", addr := "203.0.113.7:27015", gameport := 27017,
    product := "game", map := "dm2", players := 1, max_players := 8,
    gametype := "ctf" }

/-- Witness for C2: both halves applied at concrete configurations. -/
theorem c2_exclude_keyword_witness :
    create_server ⟨["qcon"], [" ONE "], true⟩ c2_record = .ok none ∧
      create_server ⟨["qcon"], [""], true⟩ c2_record =
        normalize_rest ⟨["qcon"], [""], true⟩ c2_record :=
  ⟨(c2_exclude_keyword ⟨["qcon"], [" ONE "], true⟩ c2_record).1
      (by decide) " ONE " (by decide) (by decide),
    (c2_exclude_keyword ⟨["qcon"], [""], true⟩ c2_record).2 rfl⟩

/-! ## Claims C3 and C10: the private-network policy -/

/-- C3: a record whose IP parses and lies in one of the `PRIVATE` ranges is
rejected when private networks are disallowed; when they are allowed the
private check is skipped and the record's fate is decided by the rest of the
pipeline alone. -/
theorem c3_private_network (cfg : Config) (r : RawServer) (v : Nat)
    (hp : parseIPv4 (record_ip r) = some v)
    (hin : PRIVATE.any (fun net => ipInNetwork v net) = true) :
    (cfg.privateNetworks = false → create_server cfg r = .ok none)
    ∧ (cfg.privateNetworks = true →
        create_server cfg r =
          .ok (if excluded cfg r then none else some (server_entry r))) := by
  have hpn : private_network (record_ip r) = .ok true := by
    simp only [private_network, hp]
    rw [hin]
  constructor
  · intro hfalse
    by_cases hex : excluded cfg r <;>
      simp [create_server, normalize_rest, hex, hfalse, hpn]
  · intro htrue
    by_cases hex : excluded cfg r <;>
      simp [create_server, normalize_rest, hex, htrue]

/-- A record whose address lies in `10.0.0.0/8`. -/
def c3_record : RawServer :=
  { name := "Private Server", addr := "10.5.5.5:27015", gameport := 27016,
    product := "game", map := "dm3", players := 0, max_players := 4,
    gametype := "ctf" }

/-- Witness for C3 at a `10.0.0.0/8` address, both polarities of the toggle. -/
theorem c3_private_network_witness :
    parseIPv4 (record_ip c3_record) = some (((10 * 256 + 5) * 256 + 5) * 256 + 5)
    ∧ create_server ⟨["qcon"], [""], false⟩ c3_record = .ok none
    ∧ create_server ⟨["qcon"], [""], true⟩ c3_record =
        .ok (if excluded ⟨["qcon"], [""], true⟩ c3_record then none
             else some (server_entry c3_record)) :=
  ⟨by decide,
    (c3_private_network ⟨["qcon"], [""], false⟩ c3_record
      (((10 * 256 + 5) * 256 + 5) * 256 + 5) (by decide) (by decide)).1 rfl,
    (c3_private_network ⟨["qcon"], [""], true⟩ c3_record
      (((10 * 256 + 5) * 256 + 5) * 256 + 5) (by decide) (by decide)).2 rfl⟩

/-- C10: when `includePrivateNetworks` is true, the conjunction
`not private() and private_network(ip)` short-circuits, so the classifier is
never invoked: `create_server` never raises an address-validation error and
normalizes the record whenever the exclude filter lets it through —
regardless of whether the IP portion parses. -/
theorem c10_private_short_circuit (cfg : Config) (r : RawServer)
    (htrue : cfg.privateNetworks = true) :
    create_server cfg r =
      .ok (if excluded cfg r then none else some (server_entry r)) := by
  by_cases hex : excluded cfg r <;>
    simp [create_server, normalize_rest, hex, htrue]

/-- A record whose address's IP portion is not a parseable IPv4 address. -/
def c10_record : RawServer :=
  { name := "Hostname Server", addr := "steam.example:27015", gameport := 27016,
    product := "game", map := "dm4", players := 2, max_players := 12,
    gametype := "ctf" }

/-- Witness for C10: the IP portion does not parse, yet with private
networks allowed the record is normalized without error. -/
theorem c10_private_short_circuit_witness :
    parseIPv4 (record_ip c10_record) = none
    ∧ create_server ⟨["qcon"], [""], true⟩ c10_record =
        .ok (if excluded ⟨["qcon"], [""], true⟩ c10_record then none
             else some (server_entry c10_record)) :=
  ⟨by decide, c10_private_short_circuit ⟨["qcon"], [""], true⟩ c10_record rfl⟩

/-! ## Claim C6: the rendered line format -/

/-- String concatenation is associative. -/
theorem string_append_assoc (a b c : String) : a ++ b ++ c = a ++ (b ++ c) := by
  cases a with
  | mk la =>
    cases b with
    | mk lb =>
      cases c with
      | mk lc =>
        show String.mk (la ++ lb ++ lc) = String.mk (la ++ (lb ++ lc))
        exact congrArg String.mk (List.append_assoc la lb lc)

/-- C6 counterexample: on a one-entry mapping (where every column width is
the field's own length) the rendered line concatenates the password flag and
the name directly, so it differs from the claim's format, which puts
`" - "` between them. -/
theorem c6_render_not_as_claimed :
    print_servers_lines
        [("1.2.3.4:5", ⟨"g", "n", "P ", "1/2", "m", "1.2.3.4:5"⟩)] ≠
      claimed_lines
        [("1.2.3.4:5", ⟨"g", "n", "P ", "1/2", "m", "1.2.3.4:5"⟩)] := by
  decide

/-- Each source line equals the amended format: fields joined with `" - "`
except that the password flag and the name are concatenated directly. -/
theorem server_line_eq_amended (lg lp lnm lpl lm : Nat) (p : String × Server) :
    server_line lg lp lnm lpl lm p = amended_line lg lp lnm lpl lm p := by
  simp [server_line, amended_line, join_fields, string_append_assoc]

/-- C6 amended: every rendered line left-justifies each field to its
column's maximum width and joins the segments with `" - "`, except that no
separator stands between the password-flag field and the name field; the
address segment `steam://connect/{address}` is last and unpadded; the empty
mapping renders zero lines. -/
theorem c6_render_format (servers : PyDict) :
    print_servers_lines servers = amended_lines servers
    ∧ print_servers_lines [] = [] := by
  constructor
  · simp only [print_servers_lines, amended_lines]
    congr 1
    funext p
    exact server_line_eq_amended _ _ _ _ _ p
  · rfl

/-! ## Claim C9: HTTP 503 -/

/-- `d.update({})` is `d`. -/
theorem set_many_nil (d : PyDict) : set_many d [] = d := rfl

/-- C9: a keyword whose query returns HTTP 503 contributes exactly one red
`ERROR: HTTPError 503` line, leaves the aggregated dictionary untouched, and
only adds its 60-second error sleep — the remaining keywords are processed
exactly as they would have been without it, so the loop continues. -/
theorem c9_http_error_503 (cfg : Config) (rest : List ApiOutcome) (d : PyDict) :
    cycle_steps cfg (ApiOutcome.httpError 503 :: rest) d =
      (cycle_steps cfg rest d).map
        (fun x => (red_text "ERROR: HTTPError 503" :: x.1, x.2.1, SLEEP + x.2.2)) := by
  have hg : get_servers cfg (.httpError 503) =
      .ok ⟨[red_text "ERROR: HTTPError 503"], [], SLEEP⟩ := rfl
  simp only [cycle_steps, hg, set_many_nil]
  cases hcs : cycle_steps cfg rest d with
  | error e => simp [Except.map]
  | ok x =>
    rcases x with ⟨es, d2, t⟩
    simp [Except.map]

/-! ## Claim C7: sleeping on failure -/

/-- C7 counterexample: a cycle whose single query fails sleeps 120 seconds
in total — the failure's extra 60-second sleep inside `get_servers` plus the
fixed 60-second sleep at the end of the cycle — not the fixed sleep alone. -/
theorem c7_failure_not_same_wait :
    run_cycle ⟨["qcon"], [""], true⟩ [ApiOutcome.httpError 503] =
      .ok ([red_text "ERROR: HTTPError 503"], [], 120)
    ∧ (120 : Nat) ≠ SLEEP :=
  ⟨rfl, by decide⟩

/-- A successful `get_servers` slept `SLEEP` seconds exactly when its query
failed. -/
theorem get_servers_slept (cfg : Config) (o : ApiOutcome) (step : StepResult)
    (h : get_servers cfg o = .ok step) :
    step.slept = if api_failed o then SLEEP else 0 := by
  simp only [get_servers] at h
  by_cases hv : valid_response (api_call o).1
  · rw [if_pos hv] at h
    cases ha : add_records cfg (response_servers (api_call o).1) [] with
    | error e => rw [ha] at h; simp [Except.map] at h
    | ok d2 =>
      rw [ha] at h
      simp only [Except.map, Except.ok.injEq] at h
      rw [← h]
      rfl
  · rw [if_neg hv] at h
    simp only [Except.ok.injEq] at h
    rw [← h]
    rfl

/-- The keyword loop's total in-cycle sleep is 60 seconds per failed query. -/
theorem cycle_steps_slept (cfg : Config) :
    ∀ (outs : List ApiOutcome) (d : PyDict) (es : List String) (d2 : PyDict) (t : Nat),
      cycle_steps cfg outs d = .ok (es, d2, t) →
      t = SLEEP * outs.countP api_failed := by
  intro outs
  induction outs with
  | nil =>
    intro d es d2 t h
    simp only [cycle_steps, Except.ok.injEq, Prod.mk.injEq] at h
    simp [← h.2.2]
  | cons o rest ih =>
    intro d es d2 t h
    simp only [cycle_steps] at h
    cases hg : get_servers cfg o with
    | error e => rw [hg] at h; simp at h
    | ok step =>
      rw [hg] at h
      dsimp only at h
      cases hcs : cycle_steps cfg rest (set_many d step.servers) with
      | error e => rw [hcs] at h; simp at h
      | ok y =>
        rcases y with ⟨es3, d3, t3⟩
        rw [hcs] at h
        simp only [Except.ok.injEq, Prod.mk.injEq] at h
        obtain ⟨he, hd, ht⟩ := h
        have h1 := get_servers_slept cfg o step hg
        have h2 := ih (set_many d step.servers) es3 d3 t3 hcs
        rw [List.countP_cons]
        cases hf : api_failed o <;>
          simp [hf, SLEEP] at h1 h2 ⊢ <;> omega

/-- C7 amended: the fixed 60-second end-of-cycle sleep is not the only
delay: each failed directory query adds its own 60-second sleep inside
`get_servers`, so a cycle sleeps `60 + 60 * (number of failed queries)`
seconds in total. -/
theorem c7_sleep_per_failure (cfg : Config) (outs : List ApiOutcome)
    (es : List String) (d : PyDict) (t : Nat)
    (h : run_cycle cfg outs = .ok (es, d, t)) :
    t = SLEEP + SLEEP * outs.countP api_failed := by
  simp only [run_cycle] at h
  cases hcs : cycle_steps cfg outs [] with
  | error e => rw [hcs] at h; simp [Except.map] at h
  | ok x =>
    rcases x with ⟨es2, d2, t2⟩
    rw [hcs] at h
    simp only [Except.map, Except.ok.injEq, Prod.mk.injEq] at h
    obtain ⟨he, hd, ht⟩ := h
    have h2 := cycle_steps_slept cfg outs [] es2 d2 t2 hcs
    rw [← ht, h2]
    exact Nat.add_comm _ _

/-- Witness for the amended C7: one failing and one empty-result keyword
give a 120-second total sleep. -/
theorem c7_sleep_per_failure_witness :
    run_cycle ⟨["qcon"], [""], true⟩
        [ApiOutcome.httpError 503, ApiOutcome.success Json.empty] =
      .ok ([red_text "ERROR: HTTPError 503"], [], 120)
    ∧ (120 : Nat) = SLEEP + SLEEP *
        ([ApiOutcome.httpError 503, ApiOutcome.success Json.empty].countP api_failed) :=
  ⟨rfl, c7_sleep_per_failure ⟨["qcon"], [""], true⟩
    [ApiOutcome.httpError 503, ApiOutcome.success Json.empty]
    [red_text "ERROR: HTTPError 503"] [] 120 rfl⟩

/-! ## Claim C8: fatality of the invalid-address error -/

/-- A record whose address's IP portion is not a parseable IPv4 address. -/
def c8_record : RawServer :=
  { name := "Broken", addr := "999.1.2.3.4:27015", gameport := 27016,
    product := "game", map := "dm5", players := 0, max_players := 2,
    gametype := "ctf" }

/-- C8 counterexample: with private networks disallowed, a record with an
unparseable IP makes the cycle raise the address-validation error, and the
top-level handler does not catch it — the error is fatal to the process,
contradicting the claim that only the interrupt signal is. -/
theorem c8_error_is_fatal :
    run_cycle ⟨["qcon"], [""], false⟩
        [ApiOutcome.success (Json.servers [c8_record])] =
      .error .addressValueError
    ∧ main_catches .addressValueError = false :=
  ⟨rfl, rfl⟩

/-- C8 amended: with private networks disallowed, a raw record that passes
the exclude filter but whose address's IP portion is not a valid IPv4
address makes `private_network` raise; the error propagates out of the whole
cycle, and since the top-level handler catches only `KeyboardInterrupt`, it
terminates the process. -/
theorem c8_invalid_address_fatal (cfg : Config) (r : RawServer)
    (hfalse : cfg.privateNetworks = false)
    (hex : excluded cfg r = false)
    (hbad : parseIPv4 (record_ip r) = none) :
    run_cycle cfg [ApiOutcome.success (Json.servers [r])] =
      .error .addressValueError
    ∧ main_catches .addressValueError = false := by
  refine ⟨?_, rfl⟩
  have hcs : create_server cfg r = .error .addressValueError := by
    simp [create_server, normalize_rest, hex, hfalse, private_network, hbad]
  simp [run_cycle, cycle_steps, get_servers, api_call, valid_response,
    response_servers, add_records, hcs, Except.map]

/-- Witness for the amended C8 at a hostname-style address. -/
theorem c8_invalid_address_fatal_witness :
    run_cycle ⟨["qcon"], [""], false⟩
        [ApiOutcome.success (Json.servers [c10_record])] =
      .error .addressValueError
    ∧ main_catches .addressValueError = false :=
  c8_invalid_address_fatal ⟨["qcon"], [""], false⟩ c10_record rfl
    (by decide) (by decide)

/-! ## Claim C4: dictionary lemmas -/

/-- The entry (key and value) stored at key `k`. -/
def dict_find (d : PyDict) (k : String) : Option (String × Server) :=
  d.find? (fun p => p.1 == k)

/-- `dict_get` is the value component of `dict_find`. -/
theorem dict_get_eq_find (d : PyDict) (k : String) :
    dict_get d k = (dict_find d k).map Prod.snd := rfl

/-- `find?` over an append is the first hit of either side. -/
theorem find?_append_or {α : Type} (q : α → Bool) :
    ∀ l1 l2 : List α, (l1 ++ l2).find? q = (l1.find? q).or (l2.find? q) := by
  intro l1 l2
  induction l1 with
  | nil => rfl
  | cons a t ih =>
    cases hq : q a with
    | true => simp [List.find?_cons, hq]
    | false => simp [List.find?_cons, hq, ih]

/-- Replacing the entry at key `k` in place: looking up `k` afterwards finds
the new pair, provided some entry with key `k` existed. -/
theorem dict_find_replace_self (k : String) (v : Server) :
    ∀ d : PyDict, d.any (fun p => p.1 == k) = true →
      (d.map (fun p => if p.1 == k then (k, v) else p)).find?
          (fun p => p.1 == k) = some (k, v) := by
  intro d
  induction d with
  | nil => intro h; simp at h
  | cons p t ih =>
    intro h
    rw [List.map_cons]
    cases hb : p.1 == k with
    | true =>
      rw [if_pos rfl]
      exact List.find?_cons_of_pos _ (by simp)
    | false =>
      rw [if_neg (by simp), List.find?_cons_of_neg _ (by simp [hb])]
      simp only [List.any_cons, hb, Bool.false_or] at h
      exact ih h

/-- Replacing the entry at key `k` does not change lookups at other keys. -/
theorem dict_find_replace_other (k : String) (v : Server) (k2 : String)
    (hne : k2 ≠ k) :
    ∀ d : PyDict,
      (d.map (fun p => if p.1 == k then (k, v) else p)).find?
          (fun p => p.1 == k2) = d.find? (fun p => p.1 == k2) := by
  intro d
  induction d with
  | nil => rfl
  | cons p t ih =>
    rw [List.map_cons]
    cases hb : p.1 == k with
    | true =>
      have hpk : p.1 = k := beq_iff_eq.mp hb
      have h1 : (k == k2) = false := beq_eq_false_iff_ne.mpr (fun h => hne h.symm)
      have h2 : (p.1 == k2) = false := by rw [hpk]; exact h1
      rw [if_pos rfl, List.find?_cons_of_neg _ (by simp [h1]),
        List.find?_cons_of_neg _ (by simp [h2])]
      exact ih
    | false =>
      rw [if_neg (by simp)]
      cases hb2 : p.1 == k2 with
      | true =>
        rw [List.find?_cons_of_pos _ (by simp [hb2]),
          List.find?_cons_of_pos _ (by simp [hb2])]
      | false =>
        rw [List.find?_cons_of_neg _ (by simp [hb2]),
          List.find?_cons_of_neg _ (by simp [hb2])]
        exact ih

/-- Appending a fresh pair: looking up its key finds it. -/
theorem dict_find_append_self (k : String) (v : Server)
    (d : PyDict) (h : d.any (fun p => p.1 == k) = false) :
    (d ++ [(k, v)]).find? (fun p => p.1 == k) = some (k, v) := by
  rw [find?_append_or]
  have hnone : d.find? (fun p => p.1 == k) = none := by
    apply List.find?_eq_none.mpr
    intro p hp
    have := List.any_eq_false.mp h p hp
    simpa using this
  rw [hnone, Option.none_or]
  exact List.find?_cons_of_pos _ (by simp)

/-- `d[k] = v` then lookup: the set key holds the new pair, all other keys
are untouched. -/
theorem dict_find_set (d : PyDict) (k : String) (v : Server) (k2 : String) :
    dict_find (dict_set d k v) k2 =
      if k2 = k then some (k, v) else dict_find d k2 := by
  unfold dict_find dict_set
  cases hany : d.any (fun p => p.1 == k) with
  | true =>
    rw [if_pos rfl]
    by_cases hk : k2 = k
    · rw [if_pos hk, hk]
      exact dict_find_replace_self k v d hany
    · rw [if_neg hk]
      exact dict_find_replace_other k v k2 hk d
  | false =>
    rw [if_neg (by simp)]
    by_cases hk : k2 = k
    · rw [if_pos hk, hk]
      exact dict_find_append_self k v d hany
    · rw [if_neg hk, find?_append_or]
      have hone : ([(k, v)] : PyDict).find? (fun p => p.1 == k2) = none := by
        have hkk : (k == k2) = false := beq_eq_false_iff_ne.mpr (fun h => hk h.symm)
        refine List.find?_eq_none.mpr ?_
        intro x hx
        rw [List.mem_singleton] at hx
        subst hx
        simp [hkk]
      rw [hone, Option.or_none]

/-- Unfolding one step of `d.update`. -/
theorem set_many_cons (d : PyDict) (p : String × Server)
    (kvs : List (String × Server)) :
    set_many d (p :: kvs) = set_many (dict_set d p.1 p.2) kvs := rfl

/-- Lookup after `d.update(kvs)`: the last pair of `kvs` with the key wins,
else the old entry remains. -/
theorem dict_find_set_many (k : String) :
    ∀ (kvs : List (String × Server)) (d : PyDict),
      dict_find (set_many d kvs) k =
        (kvs.reverse.find? (fun p => p.1 == k)).or (dict_find d k) := by
  intro kvs
  induction kvs with
  | nil => intro d; rfl
  | cons p t ih =>
    intro d
    rw [set_many_cons, ih, List.reverse_cons, find?_append_or, Option.or_assoc]
    congr 1
    rw [dict_find_set]
    cases hb : p.1 == k with
    | true =>
      have hk : k = p.1 := (beq_iff_eq.mp hb).symm
      simp [List.find?_cons, hb, if_pos hk]
    | false =>
      have hk : ¬(k = p.1) := fun h => by simp [h] at hb
      simp [List.find?_cons, hb, if_neg hk]

/-- In-place replacement does not change the key sequence. -/
theorem dict_keys_replace (k : String) (v : Server) :
    ∀ d : PyDict,
      dict_keys (d.map (fun p => if p.1 == k then (k, v) else p)) = dict_keys d := by
  intro d
  induction d with
  | nil => rfl
  | cons p t ih =>
    simp only [dict_keys, List.map_cons] at ih ⊢
    cases hb : p.1 == k with
    | true =>
      have hpk : p.1 = k := beq_iff_eq.mp hb
      rw [if_pos rfl, ih, hpk]
    | false =>
      rw [if_neg (by simp), ih]

/-- Keys after `d[k] = v`: unchanged when `k` was present, else `k` is
appended. -/
theorem dict_keys_set (d : PyDict) (k : String) (v : Server) :
    dict_keys (dict_set d k v) =
      if d.any (fun p => p.1 == k) then dict_keys d else dict_keys d ++ [k] := by
  unfold dict_set
  cases hany : d.any (fun p => p.1 == k) with
  | true =>
    rw [if_pos rfl, if_pos rfl]
    exact dict_keys_replace k v d
  | false =>
    rw [if_neg (by simp), if_neg (by simp)]
    simp [dict_keys]

/-- A key on which `any` fails is not among the keys. -/
theorem not_mem_keys_of_any_false (d : PyDict) (k : String)
    (h : d.any (fun p => p.1 == k) = false) : k ∉ dict_keys d := by
  intro hmem
  obtain ⟨p, hp, hpk⟩ := List.mem_map.mp hmem
  exact List.any_eq_false.mp h p hp (by simp [hpk])

/-- `d[k] = v` preserves key uniqueness. -/
theorem nodup_keys_set (d : PyDict) (k : String) (v : Server)
    (h : (dict_keys d).Nodup) : (dict_keys (dict_set d k v)).Nodup := by
  rw [dict_keys_set]
  cases hany : d.any (fun p => p.1 == k) with
  | true => exact h
  | false =>
    have hnm := not_mem_keys_of_any_false d k hany
    refine List.Nodup.append h (List.nodup_singleton k) ?_
    intro a ha hk
    rw [List.mem_singleton] at hk
    exact hnm (hk ▸ ha)

/-- `d[k] = v` grows the dictionary by at most one entry. -/
theorem length_dict_set (d : PyDict) (k : String) (v : Server) :
    (dict_set d k v).length ≤ d.length + 1 := by
  unfold dict_set
  cases hany : d.any (fun p => p.1 == k) with
  | true => rw [if_pos rfl]; simp
  | false => rw [if_neg (by simp)]; simp

/-- `d.update(kvs)` preserves key uniqueness. -/
theorem nodup_keys_set_many :
    ∀ (kvs : List (String × Server)) (d : PyDict),
      (dict_keys d).Nodup → (dict_keys (set_many d kvs)).Nodup := by
  intro kvs
  induction kvs with
  | nil => exact fun d h => h
  | cons p t ih =>
    intro d h
    rw [set_many_cons]
    exact ih _ (nodup_keys_set d p.1 p.2 h)

/-- `d.update(kvs)` grows the dictionary by at most `kvs.length` entries. -/
theorem length_set_many :
    ∀ (kvs : List (String × Server)) (d : PyDict),
      (set_many d kvs).length ≤ d.length + kvs.length := by
  intro kvs
  induction kvs with
  | nil => intro d; simp [set_many]
  | cons p t ih =>
    intro d
    rw [set_many_cons]
    have h1 := ih (dict_set d p.1 p.2)
    have h2 := length_dict_set d p.1 p.2
    simp only [List.length_cons]
    omega

/-- With unique keys, searching from the back finds the same entry as
searching from the front. -/
theorem last_find_eq_of_nodup (k : String) :
    ∀ e : PyDict, (dict_keys e).Nodup →
      e.reverse.find? (fun p => p.1 == k) = dict_find e k := by
  intro e
  induction e with
  | nil => intro _; rfl
  | cons p t ih =>
    intro h
    simp only [dict_keys, List.map_cons, List.nodup_cons] at h
    obtain ⟨hp, ht⟩ := h
    rw [List.reverse_cons, find?_append_or]
    cases hb : p.1 == k with
    | true =>
      have hpk : p.1 = k := beq_iff_eq.mp hb
      have hnone : t.reverse.find? (fun q => q.1 == k) = none := by
        refine List.find?_eq_none.mpr ?_
        intro q hq hqk
        apply hp
        have hqk' : q.1 = k := by simpa using hqk
        rw [hpk, ← hqk']
        exact List.mem_map.mpr ⟨q, List.mem_reverse.mp hq, rfl⟩
      rw [hnone, Option.none_or, dict_find,
        List.find?_cons_of_pos _ (by simp [hb]),
        List.find?_cons_of_pos _ (by simp [hb])]
    | false =>
      rw [dict_find, List.find?_cons_of_neg _ (by simp [hb]),
        List.find?_cons_of_neg _ (by simp [hb]), List.find?_nil, Option.or_none]
      exact ih (by simpa [dict_keys] using ht)

/-- When no record raised, the addition loop is an update with the
normalized entries, in order. -/
theorem add_records_eq (cfg : Config) :
    ∀ (rs : List RawServer) (d d2 : PyDict),
      add_records cfg rs d = .ok d2 → d2 = set_many d (norm_entries cfg rs) := by
  intro rs
  induction rs with
  | nil =>
    intro d d2 h
    simp only [add_records, Except.ok.injEq] at h
    rw [← h]
    rfl
  | cons r t ih =>
    intro d d2 h
    simp only [add_records] at h
    cases hc : create_server cfg r with
    | error e => rw [hc] at h; simp at h
    | ok o =>
      rw [hc] at h
      cases o with
      | none =>
        dsimp only at h
        have hne : norm_entries cfg (r :: t) = norm_entries cfg t := by
          simp [norm_entries, List.filterMap_cons, hc]
        rw [ih d d2 h, hne]
      | some s =>
        dsimp only at h
        have hne : norm_entries cfg (r :: t) = (s.address, s) :: norm_entries cfg t := by
          simp [norm_entries, List.filterMap_cons, hc]
        rw [ih (dict_set d s.address s) d2 h, hne, set_many_cons]

/-- An invalid body has no server list. -/
theorem response_servers_of_invalid (b : Option Json)
    (h : valid_response b = false) : response_servers b = [] := by
  cases b with
  | none => rfl
  | some j => cases j <;> first | rfl | simp [valid_response] at h

/-- A successful `get_servers` returns the dictionary built from its
outcome's normalized entries. -/
theorem get_servers_servers (cfg : Config) (o : ApiOutcome) (step : StepResult)
    (h : get_servers cfg o = .ok step) :
    step.servers = set_many [] (norm_entries cfg (records_of o)) := by
  simp only [get_servers] at h
  by_cases hv : valid_response (api_call o).1
  · rw [if_pos hv] at h
    cases ha : add_records cfg (response_servers (api_call o).1) [] with
    | error e => rw [ha] at h; simp [Except.map] at h
    | ok d2 =>
      rw [ha] at h
      simp only [Except.map, Except.ok.injEq] at h
      rw [← h]
      exact add_records_eq cfg _ [] d2 ha
  · rw [if_neg hv] at h
    simp only [Except.ok.injEq] at h
    rw [← h]
    have hrs : response_servers (api_call o).1 = [] :=
      response_servers_of_invalid _ (Bool.eq_false_iff.mpr hv)
    show ([] : PyDict) = _
    rw [records_of, hrs]
    rfl

/-- Normalized entries of concatenated record lists. -/
theorem norm_entries_append (cfg : Config) (a b : List RawServer) :
    norm_entries cfg (a ++ b) = norm_entries cfg a ++ norm_entries cfg b := by
  simp [norm_entries, List.filterMap_append]

/-- Invariant of the keyword loop: key uniqueness is preserved, the
dictionary grows by at most the number of raw records processed, and a
lookup finds the last normalized entry written for that key, falling back to
the initial dictionary. -/
theorem cycle_steps_invariant (cfg : Config) :
    ∀ (outs : List ApiOutcome) (d : PyDict) (es : List String) (d2 : PyDict) (t : Nat),
      cycle_steps cfg outs d = .ok (es, d2, t) →
      ((dict_keys d).Nodup → (dict_keys d2).Nodup)
      ∧ d2.length ≤ d.length + (all_records outs).length
      ∧ ∀ k, dict_find d2 k =
          ((norm_entries cfg (all_records outs)).reverse.find?
            (fun p => p.1 == k)).or (dict_find d k) := by
  intro outs
  induction outs with
  | nil =>
    intro d es d2 t h
    simp only [cycle_steps, Except.ok.injEq, Prod.mk.injEq] at h
    obtain ⟨-, hd, -⟩ := h
    subst hd
    refine ⟨id, by simp [all_records], ?_⟩
    intro k
    simp [all_records, norm_entries]
  | cons o rest ih =>
    intro d es d2 t h
    simp only [cycle_steps] at h
    cases hg : get_servers cfg o with
    | error e => rw [hg] at h; simp at h
    | ok step =>
      rw [hg] at h
      dsimp only at h
      cases hcs : cycle_steps cfg rest (set_many d step.servers) with
      | error e => rw [hcs] at h; simp at h
      | ok y =>
        rcases y with ⟨es3, d3, t3⟩
        rw [hcs] at h
        simp only [Except.ok.injEq, Prod.mk.injEq] at h
        obtain ⟨-, hd3, -⟩ := h
        subst hd3
        obtain ⟨ihn, ihl, ihg⟩ := ih (set_many d step.servers) es3 d3 t3 hcs
        have hsv := get_servers_servers cfg o step hg
        refine ⟨?_, ?_, ?_⟩
        · intro hnd
          exact ihn (nodup_keys_set_many step.servers d hnd)
        · have h1 := length_set_many step.servers d
          have h2 : step.servers.length ≤ (records_of o).length := by
            rw [hsv]
            have h3 := length_set_many (norm_entries cfg (records_of o)) []
            have h4 := List.length_filterMap_le
              (fun r => match create_server cfg r with
                | .ok (some e) => some (e.address, e)
                | _ => none) (records_of o)
            simp only [List.length_nil, Nat.zero_add] at h3
            exact Nat.le_trans h3 h4
          show d3.length ≤ d.length + (all_records (o :: rest)).length
          rw [show all_records (o :: rest) = records_of o ++ all_records rest from rfl,
            List.length_append]
          omega
        · intro k
          have hstep : step.servers.reverse.find? (fun p => p.1 == k) =
              (norm_entries cfg (records_of o)).reverse.find? (fun p => p.1 == k) := by
            rw [hsv]
            have hnd : (dict_keys
                (set_many [] (norm_entries cfg (records_of o)))).Nodup :=
              nodup_keys_set_many _ [] (by simp [dict_keys])
            rw [last_find_eq_of_nodup k _ hnd, dict_find_set_many k _ []]
            rw [show dict_find ([] : PyDict) k = none from rfl, Option.or_none]
          rw [ihg k, dict_find_set_many k step.servers d, hstep]
          rw [show all_records (o :: rest) = records_of o ++ all_records rest from rfl,
            norm_entries_append, List.reverse_append, find?_append_or,
            Option.or_assoc]

/-- C4: after a successful polling cycle the aggregated collection has
pairwise distinct address keys, at most one entry per address, its size is
at most the number of raw records processed, and the entry stored at an
address is the last normalized record that produced that address
(last write wins). -/
theorem c4_dedup_last_write (cfg : Config) (outs : List ApiOutcome)
    (es : List String) (d : PyDict) (t : Nat)
    (h : run_cycle cfg outs = .ok (es, d, t)) :
    (dict_keys d).Nodup
    ∧ (∀ k, d.countP (fun p => p.1 == k) ≤ 1)
    ∧ d.length ≤ (all_records outs).length
    ∧ ∀ k, dict_get d k =
        ((norm_entries cfg (all_records outs)).reverse.find?
          (fun p => p.1 == k)).map Prod.snd := by
  simp only [run_cycle] at h
  cases hcs : cycle_steps cfg outs [] with
  | error e => rw [hcs] at h; simp [Except.map] at h
  | ok x =>
    rcases x with ⟨es2, d3, t2⟩
    rw [hcs] at h
    simp only [Except.map, Except.ok.injEq, Prod.mk.injEq] at h
    obtain ⟨-, hd, -⟩ := h
    subst hd
    obtain ⟨hn, hl, hg⟩ := cycle_steps_invariant cfg outs [] es2 d3 t2 hcs
    have hnd : (dict_keys d3).Nodup := hn (by simp [dict_keys])
    refine ⟨hnd, ?_, by simpa using hl, ?_⟩
    · intro k
      have hcount := List.nodup_iff_count_le_one.mp hnd k
      have : (dict_keys d3).count k = d3.countP (fun p => p.1 == k) := by
        simp [dict_keys, List.count, List.countP_map]
        rfl
      rw [this] at hcount
      exact hcount
    · intro k
      rw [dict_get_eq_find, hg k,
        show dict_find ([] : PyDict) k = none from rfl, Option.or_none]

/-- Two records of the witness cycle that normalize to the same address. -/
def c4_record_a : RawServer :=
  { name := "Alpha", addr := "203.0.113.9:27015", gameport := 27020,
    product := "game", map := "dm1", players := 1, max_players := 8,
    gametype := "ctf" }

/-- Second witness record: same connect address as `c4_record_a`. -/
def c4_record_b : RawServer :=
  { name := "Beta", addr := "203.0.113.9:27099", gameport := 27020,
    product := "game", map := "dm2", players := 2, max_players := 8,
    gametype := "ctf" }

/-- The witness cycle: one keyword, two records sharing an address. -/
def c4_outs : List ApiOutcome :=
  [ApiOutcome.success (Json.servers [c4_record_a, c4_record_b])]

/-- The witness configuration. -/
def c4_cfg : Config := ⟨["qcon"], [""], true⟩

/-- The dictionary the witness cycle produces. -/
def c4_dict : PyDict :=
  set_many [] (norm_entries c4_cfg (all_records c4_outs))

/-- Witness for C4: a concrete cycle with two same-address records yields a
duplicate-free one-entry dictionary holding the later record's entry. -/
theorem c4_dedup_last_write_witness :
    run_cycle c4_cfg c4_outs = .ok ([], c4_dict, 60)
    ∧ (dict_keys c4_dict).Nodup
    ∧ (∀ k, c4_dict.countP (fun p => p.1 == k) ≤ 1)
    ∧ c4_dict.length ≤ (all_records c4_outs).length
    ∧ ∀ k, dict_get c4_dict k =
        ((norm_entries c4_cfg (all_records c4_outs)).reverse.find?
          (fun p => p.1 == k)).map Prod.snd := by
  refine ⟨rfl, ?_⟩
  have := c4_dedup_last_write c4_cfg c4_outs [] c4_dict 60 rfl
  exact this

end Ninja
